import Mathlib

/-!
# Verification of the deebase record-access layer

A shallow embedding of the core of the `deebase` repository
(`src/deebase/table.py`, `database.py`, `view.py`, `cli/migration_runner.py`)
together with theorems settling the specification claims about it.

Conventions:
* Python dicts carrying row data are embedded as association lists
  (`Row`); lookups return the first matching key, mirroring the fact
  that a Python dict holds each key once.
* SQLAlchemy sessions are embedded as an explicit working view of the
  database: a `Sess` value snapshots the committed state and records
  whether any statement ran on it.  `commit` publishes the view,
  `rollback` discards it.
* Fallible Python code (raising exceptions) is embedded with `Except`
  / explicit error components, with an `Err` constructor per class of
  the library's exception taxonomy plus the builtin exceptions the
  source raises.
-/

namespace Deebase

/-- Database cell values (SQLite-style dynamic typing, restricted to the
kinds the claims exercise). -/
inductive Val where
  | i (n : Int)
  | s (t : String)
  | null
deriving DecidableEq, Repr

/-- A row / Python dict: association list from column name to value. -/
abbrev Row := List (String × Val)

/-- First-match association-list lookup (Python `dict.get`). -/
def lookupA {α : Type} (l : List (String × α)) (k : String) : Option α :=
  match l.find? (fun p => p.1 = k) with
  | some p => some p.2
  | none => none

/-- `dict[k] = v`: replace the first binding of `k`, else append. -/
def setA {α : Type} : List (String × α) → String → α → List (String × α)
  | [], k, v => [(k, v)]
  | (k0, v0) :: rest, k, v =>
      if k0 = k then (k0, v) :: rest else (k0, v0) :: setA rest k v

/-- Remove every binding of `k`. -/
def removeA {α : Type} (l : List (String × α)) (k : String) : List (String × α) :=
  l.filter (fun p => p.1 ≠ k)

/-- `dict.get` on a row. -/
def rowGet (r : Row) (c : String) : Option Val :=
  lookupA r c

/-- `dict[c] = v` on a row. -/
def rowSet (r : Row) (c : String) (v : Val) : Row :=
  setA r c v

/-- The error taxonomy of `exceptions.py`, plus the builtin Python
exceptions the source actually raises (`NotImplementedError`,
`RuntimeError`, and a marker for an error raised by user code inside a
transaction body). -/
inductive Err where
  | notFound
  | integrity
  | validation
  | schemaErr
  | invalidOperation
  | connection
  | notImplemented
  | runtime
  | raised
deriving DecidableEq, Repr

/-- A column of a table schema: name and optional server-side default
(`server_default` in `database.py`). -/
structure Col where
  name : String
  dflt : Option Val
deriving DecidableEq, Repr

/-- The schema of one table: ordered column list and primary-key column
names (possibly composite, possibly empty for ad-hoc views). -/
structure TableSchema where
  cols : List Col
  pk : List String
deriving DecidableEq, Repr

/-- Stored state of one table: its schema and its rows in insertion
order. -/
structure TableData where
  schema : TableSchema
  rows : List Row
deriving DecidableEq, Repr

/-- The committed database: map from table name to stored table. -/
abbrev DB := List (String × TableData)

/-- A `Table` handle (`table.py`): table name, the handle's view of the
schema (`self._sa_table`), the `xtra` FilterSet, whether `dataclass()`
has switched the handle to typed output, and the FK metadata
(`column`, `references`) pairs. -/
structure TableHandle where
  name : String
  schema : TableSchema
  xtra : List (String × Val)
  typed : Bool
  foreignKeys : List (String × String)
deriving DecidableEq, Repr

/-- A returned record: untyped dict or typed dataclass instance, both
carrying the row's column values. -/
inductive Rec where
  | untyped (r : Row)
  | typed (r : Row)
deriving DecidableEq, Repr

/-- The column values carried by a returned record. -/
def Rec.row : Rec → Row
  | .untyped r => r
  | .typed r => r

/-- `Table._to_record`: wrap a fetched row according to the handle's
output shape. -/
def toRecord (h : TableHandle) (r : Row) : Rec :=
  if h.typed then .typed r else .untyped r

/-- Column names of a schema. -/
def colNames (ts : TableSchema) : List String :=
  ts.cols.map (fun c => c.name)

/-- The primary-key value of a row under a schema (ordered list of the
pk columns' values; missing components read as NULL). -/
def pkOfRow (ts : TableSchema) (r : Row) : List Val :=
  ts.pk.map (fun c => (rowGet r c).getD .null)

deriving instance DecidableEq for Except

/-- Does the row satisfy every equality filter of a FilterSet? -/
def rowSatisfies (r : Row) (filters : List (String × Val)) : Bool :=
  filters.all (fun cv => decide (rowGet r cv.1 = some cv.2))

/-! ## Record Store operations (`table.py`) -/

/-- `Table.insert` lines 217-225: for each `xtra` filter, raise
`ValidationError` when the record carries a different value for the
filtered column, then inject the filter value into the record. -/
def mergeXtra : List (String × Val) → Row → Except Err Row
  | [], d => .ok d
  | cv :: rest, d =>
      match rowGet d cv.1 with
      | some v =>
          if v = cv.2 then mergeXtra rest (rowSet d cv.1 cv.2)
          else .error .validation
      | none => mergeXtra rest (rowSet d cv.1 cv.2)

/-- Next auto-assigned integer key for column `c` (SQLite rowid
behaviour for a single `INTEGER PRIMARY KEY` left unset): one more than
the largest existing value. -/
def nextAuto (rows : List Row) (c : String) : Int :=
  (rows.foldl
    (fun m r => match rowGet r c with
      | some (.i n) => max m n
      | _ => m) 0) + 1

/-- The value the engine stores for one column of an inserted row:
the supplied value, else the server default, else the auto-assigned
single integer key, else NULL. -/
def engineVal (ts : TableSchema) (rows : List Row) (data : Row) (col : Col) : String × Val :=
  match rowGet data col.name with
  | some v => (col.name, v)
  | none =>
    match col.dflt with
    | some d => (col.name, d)
    | none =>
      if ts.pk = [col.name] then (col.name, .i (nextAuto rows col.name))
      else (col.name, .null)

/-- The full stored row the engine builds for an INSERT. -/
def engineRow (ts : TableSchema) (rows : List Row) (data : Row) : Row :=
  ts.cols.map (engineVal ts rows data)

/-- The storage engine's behaviour for one INSERT: reject unknown
columns (statement compilation failure), complete missing columns via
`engineRow`, and reject a NULL primary-key component. -/
def buildRow (ts : TableSchema) (rows : List Row) (data : Row) : Except Err Row :=
  if data.any (fun cv => !(colNames ts).contains cv.1) then
    .error .runtime
  else if (pkOfRow ts (engineRow ts rows data)).contains .null then .error .integrity
  else .ok (engineRow ts rows data)

/-- First row whose primary-key value (under `ts`) equals `ident`
(`SELECT ... WHERE pk = ...` followed by `fetchone`).  With an empty pk
column list the WHERE clause is vacuous and the first row is returned,
exactly as the source's loop over zero pk columns builds no clause. -/
def findByPk (ts : TableSchema) (rows : List Row) (ident : List Val) : Option Row :=
  rows.find? (fun r => decide (pkOfRow ts r = ident))

/-- `Table.insert` (`table.py` lines 204-284): merge the FilterSet into
the record, execute the INSERT (engine semantics above, including the
PRIMARY KEY uniqueness constraint), then re-read the stored row by its
possibly server-assigned primary key — the re-read applies no `xtra`
filter — and return it in the handle's output shape. -/
def tableInsert (h : TableHandle) (db : DB) (record : Row) :
    Except Err (Rec × DB) :=
  match lookupA db h.name with
  | none => .error .runtime
  | some td =>
    match mergeXtra h.xtra record with
    | .error e => .error e
    | .ok data =>
      match buildRow td.schema td.rows data with
      | .error e => .error e
      | .ok newRow =>
        if td.rows.any (fun r => decide (pkOfRow td.schema r = pkOfRow td.schema newRow)) then
          .error .integrity
        else
          match findByPk td.schema (td.rows ++ [newRow]) (pkOfRow td.schema newRow) with
          | some row =>
              .ok (toRecord h row, setA db h.name { td with rows := td.rows ++ [newRow] })
          | none => .error .runtime

/-- The identity columns `__getitem__` addresses (`table.py` lines
636-641): the declared primary key, or the first declared column as a
pseudo-key when the table has none. -/
def tableGetPkCols (h : TableHandle) : List String :=
  if h.schema.pk.isEmpty then (colNames h.schema).take 1 else h.schema.pk

/-- `Table.__getitem__` (`table.py` lines 624-697): normalize the
identity (arity mismatch against the identity columns is a
`ValidationError`), select by identity AND the FilterSet,
`NotFoundError` when nothing matches. -/
def tableGet (h : TableHandle) (db : DB) (ident : List Val) : Except Err Rec :=
  match lookupA db h.name with
  | none => .error .runtime
  | some td =>
    if ident.length ≠ (tableGetPkCols h).length then .error .validation
    else
      match td.rows.find? (fun r =>
          decide ((tableGetPkCols h).map (fun c => (rowGet r c).getD .null) = ident)
          && rowSatisfies r h.xtra) with
      | some row => .ok (toRecord h row)
      | none => .error .notFound

/-- Python `{**old, **new}`: keys of `old` in order with values
overridden by `new` where present, followed by the keys only `new`
has. -/
def pyMerge (old new : List (String × Val)) : List (String × Val) :=
  old.map (fun cv => (cv.1, (lookupA new cv.1).getD cv.2))
    ++ new.filter (fun cv => (lookupA old cv.1).isNone)

/-- `Table.xtra` (`table.py` lines 182-202): a new handle whose
FilterSet is `{**self._xtra_filters, **kwargs}`. -/
def xtraDerive (h : TableHandle) (kwargs : List (String × Val)) : TableHandle :=
  { h with xtra := pyMerge h.xtra kwargs }

/-- Split a character list at every separator occurrence (Python
`str.split(sep)` for a one-character separator). -/
def splitChar (sep : Char) : List Char → List (List Char)
  | [] => [[]]
  | ch :: rest =>
      let r := splitChar sep rest
      if ch = sep then [] :: r
      else
        match r with
        | [] => [[ch]]
        | g :: gs => (ch :: g) :: gs

/-- `"table.column".split(".")` as `get_parent` performs it. -/
def splitOnDot (s : String) : List String :=
  (splitChar (Char.ofNat 46) s.data).map List.asString

/-- `Table.get_parent` (`table.py` lines 817-898).  The registry is
`db._tables` (name → handle); row storage is looked up in `db`.
Returns `none` for a NULL/absent FK value and for a dangling
reference. -/
def getParent (h : TableHandle) (registry : List (String × TableHandle))
    (db : DB) (record : Row) (fkColumn : String) : Except Err (Option Rec) :=
  if !(colNames h.schema).contains fkColumn then .error .validation
  else
    match h.foreignKeys.find? (fun fk => fk.1 = fkColumn) with
    | none => .error .validation
    | some fkDef =>
      match rowGet record fkColumn with
      | none => .ok none
      | some .null => .ok none
      | some fkValue =>
        -- parse "table.column"; the column part is computed but never used
        let refParts := splitOnDot fkDef.2
        let refTable := refParts.headD ""
        let _refColumn := if refParts.length > 1 then refParts.getD 1 "" else "id"
        match lookupA registry refTable with
        | none => .error .schemaErr
        | some parentTable =>
          -- `parent_table[fk_value]`: identity lookup on the parent's pk
          match tableGet parentTable db [fkValue] with
          | .ok rec => .ok (some rec)
          | .error .notFound => .ok none
          | .error e => .error e

/-- `Table.get_children` (`table.py` lines 900-995): extract this
record's identity, then select the child table's rows whose `fkColumn`
equals it.  The child handle's `xtra` filters are not applied to the
query; the child's output shape is.  A composite parent key is compared
as a tuple against the scalar column and never matches. -/
def getChildren (h : TableHandle) (db : DB) (record : Row)
    (child : TableHandle) (fkColumn : String) : Except Err (List Rec) :=
  if h.schema.pk.isEmpty then .error .validation
  else
    let pkVals := h.schema.pk.map (fun c => rowGet record c)
    if pkVals.contains none || pkVals.contains (some .null) then .error .validation
    else if !(colNames child.schema).contains fkColumn then .error .validation
    else
      let childRows := match lookupA db child.name with
        | some td => td.rows
        | none => []
      let hits := match pkVals with
        | [some v] => childRows.filter (fun r => decide (rowGet r fkColumn = some v))
        | _ => []
      .ok (hits.map (toRecord child))

/-! ## Read-only views (`view.py`)

Every mutating operation raises the builtin `NotImplementedError`
immediately, before any session or storage access: the database
component of the result is the input, untouched. -/

/-- `View.insert`. -/
def viewInsert (_h : TableHandle) (db : DB) (_record : Row) : DB × Except Err Rec :=
  (db, .error .notImplemented)

/-- `View.update`. -/
def viewUpdate (_h : TableHandle) (db : DB) (_record : Row) : DB × Except Err Rec :=
  (db, .error .notImplemented)

/-- `View.upsert`. -/
def viewUpsert (_h : TableHandle) (db : DB) (_record : Row) : DB × Except Err Rec :=
  (db, .error .notImplemented)

/-- `View.delete`. -/
def viewDelete (_h : TableHandle) (db : DB) (_ident : List Val) : DB × Except Err Unit :=
  (db, .error .notImplemented)

/-! ## Transaction coordinator (`database.py`)

`Database.transaction` unconditionally creates a fresh session from the
session factory and stores it in the `_active_session` context variable,
saving the previous value via the token and restoring it on exit; it
commits that session on normal exit and rolls it back on error.
`Table._session_scope` uses the active session without managing its
lifecycle when one is set, and otherwise opens, commits and closes its
own.  `Database.q` / `Database._session` always open their own session
and commit it immediately — they never consult `_active_session`.

A session is embedded as a working view of the database plus a dirty
flag; committing a session on which no statement ran is a no-op. -/

/-- One SQLAlchemy session: the working view of the database and
whether any statement was executed on it. -/
structure Sess where
  dirty : Bool
  view : DB
deriving DecidableEq, Repr

/-- The execution state: the committed database plus the
`_active_session` context variable. -/
structure ExecState where
  committed : DB
  sess : Option Sess
deriving DecidableEq, Repr

/-- Raw statements issued through `Database.q`, restricted to the forms
the migration runner and migration bodies use. -/
inductive Stmt where
  | createTable (t : String) (ts : TableSchema)
  | createTableIfNotExists (t : String) (ts : TableSchema)
  | insertLedger (version : Int) (nm : String)
  | deleteLedger (version : Int)
  | fail
deriving DecidableEq, Repr

/-- Name of the migration ledger table. -/
def ledgerName : String := "_deebase_migrations"

/-- Schema of the ledger (`_ensure_version_table`): `version` int pk,
`name` text, `applied_at` timestamp with a server default. -/
def ledgerSchema : TableSchema :=
  { cols := [⟨"version", none⟩, ⟨"name", none⟩, ⟨"applied_at", some (.s "now")⟩],
    pk := ["version"] }

/-- The ledger row recorded for an applied migration. -/
def ledgerRow (version : Int) (nm : String) : Row :=
  [("version", .i version), ("name", .s nm), ("applied_at", .s "now")]

/-- Does the string contain a single-quote character?  `_record_migration`
interpolates the migration name into the INSERT with an f-string, so a
quote breaks the statement. -/
def hasQuote (s : String) : Bool :=
  s.data.any (fun ch => ch = Char.ofNat 39)

/-- Semantics of one raw statement against the committed database
(`Database.q`: own session, committed immediately; a failing statement
leaves the database unchanged). -/
def qsem : Stmt → DB → Except Err DB
  | .createTable t ts, db =>
      if (lookupA db t).isSome then .error .schemaErr
      else .ok (db ++ [(t, ⟨ts, []⟩)])
  | .createTableIfNotExists t ts, db =>
      if (lookupA db t).isSome then .ok db
      else .ok (db ++ [(t, ⟨ts, []⟩)])
  | .insertLedger v nm, db =>
      if hasQuote nm then .error .schemaErr
      else
        match lookupA db ledgerName with
        | none => .error .schemaErr
        | some td =>
          if td.rows.any (fun r => decide (rowGet r "version" = some (.i v))) then
            .error .runtime
          else
            .ok (setA db ledgerName { td with rows := td.rows ++ [ledgerRow v nm] })
  | .deleteLedger v, db =>
      match lookupA db ledgerName with
      | none => .error .schemaErr
      | some td =>
        .ok (setA db ledgerName
          { td with rows := td.rows.filter (fun r => !decide (rowGet r "version" = some (.i v))) })
  | .fail, _ => .error .schemaErr

/-- Operations whose execution the transaction coordinator governs. -/
inductive Op where
  | tinsert (h : TableHandle) (r : Row)
  | qexec (s : Stmt)
  | raiseErr
  | tx (body : List Op)
deriving Repr

mutual

/-- Execute one operation.

* `tinsert` (`Table.insert` via `_session_scope`): with an active
  session, run against its view without committing; otherwise open an
  own session, commit on success, roll back on failure.
* `qexec` (`Database.q`): always an own immediately-committed session,
  regardless of any active transaction.
* `raiseErr`: an exception raised by the body's own code.
* `tx` (`Database.transaction`): unconditionally bind a fresh session
  to `_active_session` (saving the previous value), run the body,
  commit the fresh session on success / roll it back on error, and
  restore the saved context-variable value. -/
def runOp : Op → ExecState → ExecState × Option Err
  | .tinsert h r, st =>
      match st.sess with
      | some s =>
          match tableInsert h s.view r with
          | .ok (_, db2) => ({ committed := st.committed, sess := some ⟨true, db2⟩ }, none)
          | .error e => (st, some e)
      | none =>
          match tableInsert h st.committed r with
          | .ok (_, db2) => ({ committed := db2, sess := none }, none)
          | .error e => (st, some e)
  | .qexec q, st =>
      match qsem q st.committed with
      | .ok db2 => ({ committed := db2, sess := st.sess }, none)
      | .error e => (st, some e)
  | .raiseErr, st => (st, some .raised)
  | .tx body, st =>
      let saved := st.sess
      match runOps body { committed := st.committed, sess := some ⟨false, st.committed⟩ } with
      | (st1, none) =>
          let committed2 := match st1.sess with
            | some s => if s.dirty then s.view else st1.committed
            | none => st1.committed
          ({ committed := committed2, sess := saved }, none)
      | (st1, some e) => ({ committed := st1.committed, sess := saved }, some e)

/-- Execute a list of operations, stopping at the first error. -/
def runOps : List Op → ExecState → ExecState × Option Err
  | [], st => (st, none)
  | op :: rest, st =>
      match runOp op st with
      | (st1, none) => runOps rest st1
      | (st1, some e) => (st1, some e)

end

/-! ## Migration runner (`cli/migration_runner.py`) -/

/-- A discovered migration file (`NNNN-description.py` already parsed):
version, name, and whether/which `upgrade` and `downgrade` bodies it
carries.  Bodies are sequences of Record Store / raw-statement calls. -/
structure MigrationFile where
  version : Int
  nm : String
  hasUpgrade : Bool
  upgrade : List Op
  hasDowngrade : Bool
  downgrade : List Op

/-- Stable insertion of a migration before the first strictly larger
version (Python `sorted` is stable). -/
def insertByVersion (m : MigrationFile) : List MigrationFile → List MigrationFile
  | [] => [m]
  | x :: xs => if m.version ≤ x.version then m :: x :: xs else x :: insertByVersion m xs

/-- Stable sort of migrations by version. -/
def sortByVersion : List MigrationFile → List MigrationFile
  | [] => []
  | m :: ms => insertByVersion m (sortByVersion ms)

/-- `MigrationRunner._discover_migrations`: keep versions in
`(after, upTo]` and sort ascending by version. -/
def discoverMigrations (dir : List MigrationFile) (after : Int) (upTo : Option Int) :
    List MigrationFile :=
  sortByVersion (dir.filter (fun m =>
    decide (after < m.version) &&
    (match upTo with
     | none => true
     | some u => decide (m.version ≤ u))))

/-- `MigrationRunner._ensure_version_table`: `CREATE TABLE IF NOT
EXISTS` for the ledger (this statement cannot fail). -/
def ensureLedger (db : DB) : DB :=
  match qsem (.createTableIfNotExists ledgerName ledgerSchema) db with
  | .ok db2 => db2
  | .error _ => db

/-- `MigrationRunner._get_current_version`: `MAX(version)` over the
ledger, `0` when empty or absent. -/
def currentVersion (db : DB) : Int :=
  match lookupA db ledgerName with
  | none => 0
  | some td =>
    td.rows.foldl
      (fun m r => match rowGet r "version" with
        | some (.i n) => max m n
        | _ => m) 0

/-- The loop body of `MigrationRunner.up`: each pending unit's upgrade
body plus its ledger insertion, wrapped in `db.transaction()`; a
missing `upgrade` function or any error stops the run. -/
def migUpGo : List MigrationFile → DB → List Int → List Int × DB × Option Err
  | [], db, acc => (acc, db, none)
  | m :: rest, db, acc =>
    if m.hasUpgrade then
      match runOps [.tx (m.upgrade ++ [.qexec (.insertLedger m.version m.nm)])]
          { committed := db, sess := none } with
      | (st, none) => migUpGo rest st.committed (acc ++ [m.version])
      | (st, some e) => (acc, st.committed, some e)
    else (acc, db, some .runtime)

/-- `MigrationRunner.up` (lines 90-131): ensure the ledger, discover
the pending units strictly above the current version (up to the
optional target), and apply each.  Returns the applied versions, the
final committed database and the error that stopped the run, if any. -/
def migUp (dir : List MigrationFile) (toVersion : Option Int) (db : DB) :
    List Int × DB × Option Err :=
  let db1 := ensureLedger db
  migUpGo (discoverMigrations dir (currentVersion db1) toVersion) db1 []

/-- The loop body of `MigrationRunner.down`: each unit's downgrade body
plus its ledger deletion, wrapped in `db.transaction()`. -/
def migDownGo : List MigrationFile → DB → List Int → List Int × DB × Option Err
  | [], db, acc => (acc, db, none)
  | m :: rest, db, acc =>
    if m.hasDowngrade then
      match runOps [.tx (m.downgrade ++ [.qexec (.deleteLedger m.version)])]
          { committed := db, sess := none } with
      | (st, none) => migDownGo rest st.committed (acc ++ [m.version])
      | (st, some e) => (acc, st.committed, some e)
    else (acc, db, some .runtime)

/-- `MigrationRunner.down` (lines 133-188): with no target, the target
becomes `current - 1`; the units rolled back are the DISCOVERED FILES
with version in `(target, current]`, processed in reverse of the
ascending sort. -/
def migDown (dir : List MigrationFile) (toVersion : Option Int) (db : DB) :
    List Int × DB × Option Err :=
  let db1 := ensureLedger db
  let current := currentVersion db1
  if current = 0 then ([], db1, none)
  else
    let target := toVersion.getD (current - 1)
    migDownGo (discoverMigrations dir target (some current)).reverse db1 []

/-! ## `Database.create` (`database.py` lines 136-343)

The schema-descriptor building from class annotations happens upstream;
the embedding takes the already-built descriptor and models the
branching on the connection's in-memory metadata (`self._metadata`) and
on storage.  The returned handle is bound to whichever `sa.Table`
object the source passes to the `Table` constructor. -/

/-- A database connection's table-creation state: the in-memory
SQLAlchemy metadata and the storage backend. -/
structure DBConn where
  metadata : List (String × TableSchema)
  storage : DB
deriving DecidableEq, Repr

/-- The storage-level CREATE TABLE for the non-metadata branches:
plain CREATE fails when the table exists in storage; CREATE TABLE IF
NOT EXISTS leaves an existing table untouched. -/
def createNewTable (conn : DBConn) (tableName : String) (newSchema : TableSchema)
    (ifNotExists : Bool) : Except Err (TableSchema × DBConn) :=
  let md := conn.metadata ++ [(tableName, newSchema)]
  if ifNotExists then
    .ok (newSchema,
      ⟨md, if (lookupA conn.storage tableName).isSome then conn.storage
           else conn.storage ++ [(tableName, ⟨newSchema, []⟩)]⟩)
  else
    if (lookupA conn.storage tableName).isSome then .error .schemaErr
    else .ok (newSchema, ⟨md, conn.storage ++ [(tableName, ⟨newSchema, []⟩)]⟩)

/-- `Database.create`: result is the schema the returned `Table` handle
is bound to, plus the new connection state. -/
def dbCreate (conn : DBConn) (tableName : String) (newSchema : TableSchema)
    (ifNotExists replace : Bool) : Except Err (TableSchema × DBConn) :=
  let conn1 := if replace then
      ⟨removeA conn.metadata tableName, removeA conn.storage tableName⟩
    else conn
  match lookupA conn1.metadata tableName with
  | some existing =>
      if ifNotExists then
        -- return a handle bound to the EXISTING metadata table
        .ok (existing, conn1)
      else
        -- remove from metadata and recreate (fails at DB level if the
        -- table exists in storage)
        createNewTable ⟨removeA conn1.metadata tableName, conn1.storage⟩
          tableName newSchema false
  | none => createNewTable conn1 tableName newSchema ifNotExists

/-! ## Concrete fixtures used by witnesses and counterexamples -/

/-- A two-column schema `{id: int PK, name: text}`. -/
def ts0 : TableSchema := { cols := [⟨"id", none⟩, ⟨"name", none⟩], pk := ["id"] }

/-- A database with one empty table `t` of schema `ts0`. -/
def db0 : DB := [("t", ⟨ts0, []⟩)]

/-- A plain handle on `t`: no filters, untyped output. -/
def h0 : TableHandle :=
  { name := "t", schema := ts0, xtra := [], typed := false, foreignKeys := [] }

/-- A well-formed record for `t`. -/
def r0 : Row := [("id", .i 1), ("name", .s "a")]

/-- `db0` after inserting `r0`. -/
def db0ins : DB := [("t", ⟨ts0, [[("id", .i 1), ("name", .s "a")]]⟩)]

/-- The record `insert` returns for `r0` on `h0`. -/
def rec0 : Rec := .untyped [("id", .i 1), ("name", .s "a")]

/-- An execution state with an active (outer) transaction scope over
`db0`. -/
def st0 : ExecState := { committed := db0, sess := some ⟨false, db0⟩ }

/-- A migration file whose name contains a single quote, whose upgrade
creates table `x`, and whose downgrade is empty. -/
def mQuote : MigrationFile :=
  { version := 1, nm := "it" ++ (Char.ofNat 39).toString ++ "s", hasUpgrade := true,
    upgrade := [.qexec (.createTable "x" ts0)], hasDowngrade := true, downgrade := [] }

/-- A database holding only an empty migration ledger. -/
def dbL : DB := [(ledgerName, ⟨ledgerSchema, []⟩)]

/-- A database whose ledger records version 1 as applied. -/
def dbL1 : DB := [(ledgerName, ⟨ledgerSchema, [ledgerRow 1 "init"]⟩)]

/-- A trivial migration file with the given version. -/
def mf (v : Int) : MigrationFile :=
  { version := v, nm := "m", hasUpgrade := true, upgrade := [],
    hasDowngrade := true, downgrade := [] }

/-- A database whose ledger records versions 1 and 2 as applied. -/
def dbL12 : DB := [(ledgerName, ⟨ledgerSchema, [ledgerRow 1 "m", ledgerRow 2 "m"]⟩)]

/-- A database whose ledger records ONLY version 2 as applied (version
1's file exists in the directory fixtures but was never applied). -/
def dbL2 : DB := [(ledgerName, ⟨ledgerSchema, [ledgerRow 2 "m"]⟩)]

/-- Child-table schema for the FK fixtures. -/
def childTs : TableSchema :=
  { cols := [⟨"cid", none⟩, ⟨"fk", none⟩, ⟨"s", none⟩], pk := ["cid"] }

/-- Child handle carrying a FilterSet `s = "b"`. -/
def childH : TableHandle :=
  { name := "c", schema := childTs, xtra := [("s", .s "b")], typed := false,
    foreignKeys := [] }

/-- Parent row `{id: 1, name: "p"}` and a single child row violating the
child handle's FilterSet. -/
def dbC : DB :=
  [("t", ⟨ts0, [[("id", .i 1), ("name", .s "p")]]⟩),
   ("c", ⟨childTs, [[("cid", .i 1), ("fk", .i 1), ("s", .s "a")]]⟩)]

/-- Parent-table handle for the `getParent` fixtures. -/
def userH : TableHandle :=
  { name := "user", schema := ts0, xtra := [], typed := false, foreignKeys := [] }

/-- Post-table schema for the `getParent` fixtures. -/
def postTs : TableSchema :=
  { cols := [⟨"pid", none⟩, ⟨"author_id", none⟩], pk := ["pid"] }

/-- Post handle whose FK edge names a NON-primary-key target column
(`user.name`). -/
def postH : TableHandle :=
  { name := "post", schema := postTs, xtra := [], typed := false,
    foreignKeys := [("author_id", "user.name")] }

/-- Storage for the `getParent` fixtures: one user, one post. -/
def dbP : DB :=
  [("user", ⟨ts0, [[("id", .i 1), ("name", .s "alice")]]⟩),
   ("post", ⟨postTs, [[("pid", .i 10), ("author_id", .i 1)]]⟩)]

/-- Number of rows of table `t` in `db`. -/
def rowCount (db : DB) (t : String) : Nat :=
  match lookupA db t with
  | some td => td.rows.length
  | none => 0

/-! ## Helper lemmas -/

theorem lookupA_cons {α : Type} (k0 : String) (v0 : α) (l : List (String × α)) (k : String) :
    lookupA ((k0, v0) :: l) k = if k0 = k then some v0 else lookupA l k := by
  by_cases h : k0 = k <;> simp [lookupA, List.find?, h]

theorem lookupA_setA_self {α : Type} (l : List (String × α)) (k : String) (v : α) :
    lookupA (setA l k v) k = some v := by
  induction l with
  | nil => simp [setA, lookupA_cons]
  | cons p rest ih =>
      obtain ⟨k0, v0⟩ := p
      by_cases h : k0 = k
      · simp [setA, h, lookupA_cons]
      · simp [setA, h, lookupA_cons, ih]

theorem lookupA_setA_ne {α : Type} (l : List (String × α)) (k k' : String) (v : α)
    (hne : k' ≠ k) : lookupA (setA l k v) k' = lookupA l k' := by
  induction l with
  | nil => simp [setA, lookupA_cons, lookupA, Ne.symm hne]
  | cons p rest ih =>
      obtain ⟨k0, v0⟩ := p
      by_cases h : k0 = k
      · subst h
        simp [setA, lookupA_cons, Ne.symm hne]
      · simp [setA, h, lookupA_cons, ih]

theorem lookupA_append {α : Type} (l1 l2 : List (String × α)) (k : String) :
    lookupA (l1 ++ l2) k =
      match lookupA l1 k with
      | some v => some v
      | none => lookupA l2 k := by
  induction l1 with
  | nil => simp [lookupA]
  | cons p rest ih =>
      obtain ⟨k0, v0⟩ := p
      by_cases h : k0 = k <;> simp [lookupA_cons, h, ih]

theorem rowGet_rowSet_self (r : Row) (c : String) (v : Val) :
    rowGet (rowSet r c v) c = some v :=
  lookupA_setA_self r c v

theorem rowGet_rowSet_ne (r : Row) (c c' : String) (v : Val) (hne : c' ≠ c) :
    rowGet (rowSet r c v) c' = rowGet r c' :=
  lookupA_setA_ne r c c' v hne

/-- Inverting one step of `mergeXtra`: on success the loop continued on
the record with the filter value injected. -/
theorem mergeXtra_cons_inv (cv : String × Val) (rest : List (String × Val)) (d d' : Row)
    (hmerge : mergeXtra (cv :: rest) d = .ok d') :
    mergeXtra rest (rowSet d cv.1 cv.2) = .ok d' := by
  rw [mergeXtra] at hmerge
  cases hd : rowGet d cv.1 with
  | none => rw [hd] at hmerge; exact hmerge
  | some w =>
      rw [hd] at hmerge
      dsimp only at hmerge
      by_cases hv : w = cv.2
      · rwa [if_pos hv] at hmerge
      · rw [if_neg hv] at hmerge; cases hmerge

/-- `mergeXtra` never changes a value that is already present: injecting
a filter value over an existing one succeeds only when they are equal. -/
theorem mergeXtra_preserves (xtra : List (String × Val)) (d d' : Row) (c : String) (v : Val)
    (hmerge : mergeXtra xtra d = .ok d') (hget : rowGet d c = some v) :
    rowGet d' c = some v := by
  induction xtra generalizing d with
  | nil =>
      rw [mergeXtra] at hmerge
      cases hmerge
      exact hget
  | cons cv rest ih =>
      have hrest := mergeXtra_cons_inv cv rest d d' hmerge
      by_cases hc : cv.1 = c
      · -- the injected value must equal the present one
        subst hc
        rw [mergeXtra, hget] at hmerge
        dsimp only at hmerge
        by_cases hv : v = cv.2
        · subst hv
          exact ih _ hrest (rowGet_rowSet_self d cv.1 cv.2)
        · rw [if_neg hv] at hmerge; cases hmerge
      · exact ih _ hrest (by rw [rowGet_rowSet_ne _ _ _ _ (fun h => hc h.symm)]; exact hget)

/-- After a successful `mergeXtra`, the record carries every filter's
value. -/
theorem mergeXtra_mem (xtra : List (String × Val)) (d d' : Row)
    (hmerge : mergeXtra xtra d = .ok d') :
    ∀ cv ∈ xtra, rowGet d' cv.1 = some cv.2 := by
  induction xtra generalizing d with
  | nil => simp
  | cons cv0 rest ih =>
      intro cv hcv
      have hrest := mergeXtra_cons_inv cv0 rest d d' hmerge
      rcases List.mem_cons.mp hcv with hcv | hcv
      · subst hcv
        exact mergeXtra_preserves rest _ d' cv.1 cv.2 hrest
          (rowGet_rowSet_self d cv.1 cv.2)
      · exact ih _ hrest cv hcv

theorem runOps_nil (st : ExecState) : runOps [] st = (st, none) := rfl

theorem runOps_cons (op : Op) (rest : List Op) (st : ExecState) :
    runOps (op :: rest) st =
      match runOp op st with
      | (st1, none) => runOps rest st1
      | (st1, some e) => (st1, some e) := rfl

theorem runOps_append (l1 l2 : List Op) (st : ExecState) :
    runOps (l1 ++ l2) st =
      match runOps l1 st with
      | (st1, none) => runOps l2 st1
      | (st1, some e) => (st1, some e) := by
  induction l1 generalizing st with
  | nil => rw [List.nil_append, runOps_nil]
  | cons op rest ih =>
      rw [List.cons_append, runOps_cons, runOps_cons]
      rcases hop : runOp op st with ⟨st1, e?⟩
      cases e? with
      | none => exact ih st1
      | some e => rfl

/-- A `Table.insert` executed inside an active transaction scope writes
only to the session's view: the committed database is untouched and the
scope stays active. -/
theorem runOp_tinsert_active (h : TableHandle) (r : Row) (db : DB) (s : Sess) :
    ∃ s2 e?, runOp (.tinsert h r) ⟨db, some s⟩ = (⟨db, some s2⟩, e?) := by
  rcases htr : tableInsert h s.view r with e | ⟨rec, db2⟩
  · exact ⟨s, some e, by rw [runOp]; simp [htr]⟩
  · exact ⟨⟨true, db2⟩, none, by rw [runOp]; simp [htr]⟩

/-- A sequence of `Table.insert`s inside an active scope leaves the
committed database unchanged, whether or not one of them fails. -/
theorem runOps_tinserts_active (h : TableHandle) (rs : List Row) (db : DB) (s : Sess) :
    ∃ s2 e?, runOps (rs.map (Op.tinsert h)) ⟨db, some s⟩ = (⟨db, some s2⟩, e?) := by
  induction rs generalizing s with
  | nil => exact ⟨s, none, rfl⟩
  | cons r rest ih =>
      obtain ⟨s2, e?, hop⟩ := runOp_tinsert_active h r db s
      rw [List.map_cons, runOps_cons, hop]
      cases e? with
      | none => exact ih s2
      | some e => exact ⟨s2, some e, rfl⟩

/-! ## Claim C1 -/

/-- C1, counterexample.  The claim states that a `Database.transaction`
entered while a scope is already active reuses the outer scope's unit
of work and neither commits nor rolls back independently — i.e. that
running the nested `transaction` is indistinguishable from running its
body in the outer scope.  The code instead binds a fresh session:
wrapping a single insert in a nested transaction commits it at the
inner exit, while running the insert directly only stages it in the
outer session. -/
theorem c1_counterexample :
    ¬ (∀ (st : ExecState) (body : List Op), st.sess.isSome = true →
        runOps [Op.tx body] st = runOps body st) := by
  intro hcl
  exact absurd (hcl st0 [Op.tinsert h0 r0] (by decide)) (by decide)

/-- C1, amended: nesting `Database.transaction` inside an active scope
creates a NEW independent session bound to `_active_session` for the
inner extent; the inner call commits its own work on normal exit even
though the outer scope later rolls back, and the outer scope's session
is restored afterwards.  Here the inner transaction's insert survives
in the committed database although the outer transaction exits with an
error and rolls back. -/
theorem c1_nested_transaction_independent_commit
    (db db2 : DB) (h : TableHandle) (r : Row) (rec : Rec)
    (hins : tableInsert h db r = .ok (rec, db2)) :
    runOps [.tx [.tx [.tinsert h r], .raiseErr]] { committed := db, sess := none }
      = ({ committed := db2, sess := none }, some .raised) := by
  simp only [runOps, runOp, hins]
  simp

/-- C1, witness: the amended theorem applied at the concrete fixture
(`db0`, `h0`, `r0`). -/
theorem c1_witness :
    runOps [.tx [.tx [.tinsert h0 r0], .raiseErr]] { committed := db0, sess := none }
      = ({ committed := db0ins, sess := none }, some .raised) :=
  c1_nested_transaction_independent_commit db0 db0ins h0 r0 rec0 (by rfl)

/-! ## Claim C2 -/

/-- C2, confirmed.  N `Table.insert`s inside one `db.transaction()`
body followed by a raised error leave the committed database exactly as
it was: the transaction's session is rolled back as a whole, so every
table's row count is unchanged — all-or-nothing. -/
theorem c2_rollback_all_or_nothing (db : DB) (h : TableHandle) (rs : List Row) :
    (runOps [.tx (rs.map (Op.tinsert h) ++ [.raiseErr])] ⟨db, none⟩).1 = ⟨db, none⟩
    ∧ ((runOps [.tx (rs.map (Op.tinsert h) ++ [.raiseErr])] ⟨db, none⟩).2).isSome = true
    ∧ ∀ t, rowCount (runOps [.tx (rs.map (Op.tinsert h) ++ [.raiseErr])] ⟨db, none⟩).1.committed t
        = rowCount db t := by
  obtain ⟨s2, e?, hmap⟩ := runOps_tinserts_active h rs db ⟨false, db⟩
  have hbody : ∃ e, runOps (rs.map (Op.tinsert h) ++ [Op.raiseErr])
      { committed := db, sess := some ⟨false, db⟩ }
      = ({ committed := db, sess := some s2 }, some e) := by
    rw [runOps_append, hmap]
    cases e? with
    | none => exact ⟨.raised, rfl⟩
    | some e => exact ⟨e, rfl⟩
  obtain ⟨e, hbody⟩ := hbody
  have hrun : runOps [Op.tx (rs.map (Op.tinsert h) ++ [Op.raiseErr])] ⟨db, none⟩
      = (⟨db, none⟩, some e) := by
    rw [runOps_cons, runOp, hbody]
  rw [hrun]
  exact ⟨rfl, rfl, fun _ => rfl⟩

/-! ## Claim C5 -/

theorem lookupA_map_override (old new : List (String × Val)) (c : String) :
    lookupA (old.map (fun cv => (cv.1, (lookupA new cv.1).getD cv.2))) c
      = (lookupA old c).map (fun v => (lookupA new c).getD v) := by
  induction old with
  | nil => rfl
  | cons p rest ih =>
      obtain ⟨k0, v0⟩ := p
      by_cases h : k0 = c
      · subst h
        simp [lookupA_cons]
      · simp [lookupA_cons, h, ih]

theorem lookupA_filter_absent (old new : List (String × Val)) (c : String)
    (hc : lookupA old c = none) :
    lookupA (new.filter (fun cv => (lookupA old cv.1).isNone)) c = lookupA new c := by
  induction new with
  | nil => rfl
  | cons p rest ih =>
      obtain ⟨k0, v0⟩ := p
      by_cases h : k0 = c
      · subst h
        simp [List.filter_cons, hc, lookupA_cons]
      · by_cases hkeep : (lookupA old k0).isNone
        · simp [List.filter_cons, hkeep, lookupA_cons, h, ih]
        · simp [List.filter_cons, hkeep, lookupA_cons, h, ih]

theorem lookupA_filter_present (old new : List (String × Val)) (c : String)
    (hc : (lookupA old c).isSome) :
    lookupA (new.filter (fun cv => (lookupA old cv.1).isNone)) c = none := by
  induction new with
  | nil => rfl
  | cons p rest ih =>
      obtain ⟨k0, v0⟩ := p
      by_cases h : k0 = c
      · subst h
        have : ¬ (lookupA old k0).isNone := by
          cases hv : lookupA old k0 <;> simp [hv] at hc ⊢
        simp [List.filter_cons, this, ih]
      · by_cases hkeep : (lookupA old k0).isNone
        · simp [List.filter_cons, hkeep, lookupA_cons, h, ih]
        · simp [List.filter_cons, hkeep, lookupA_cons, h, ih]

/-- C5, counterexample.  The claim states that deriving a handle via
`xtra` never removes an earlier filter and that a conflicting value for
an already-filtered column is a usage error.  `Table.xtra` instead
computes `{**self._xtra_filters, **kwargs}`, which silently replaces
the old value: the earlier binding `a = 1` is gone from the derived
handle's FilterSet and no error is raised. -/
theorem c5_counterexample :
    ¬ (∀ (h : TableHandle) (kwargs : List (String × Val)) (cv : String × Val),
        cv ∈ h.xtra → cv ∈ (xtraDerive h kwargs).xtra) := by
  intro hcl
  exact absurd
    (hcl { h0 with xtra := [("a", .i 1)] } [("a", .i 2)] ("a", .i 1) (by decide))
    (by decide)

/-- C5, amended: the derived handle's FilterSet is the Python dict
merge `{**old, **kwargs}` — for every column, a filter supplied in
`kwargs` silently wins over an existing one, and columns not mentioned
in `kwargs` keep their old value.  No conflict check is performed. -/
theorem c5_xtra_merge_later_wins (h : TableHandle) (kwargs : List (String × Val))
    (c : String) :
    lookupA (xtraDerive h kwargs).xtra c
      = match lookupA kwargs c with
        | some v => some v
        | none => lookupA h.xtra c := by
  show lookupA (pyMerge h.xtra kwargs) c = _
  rw [pyMerge, lookupA_append, lookupA_map_override]
  cases hold : lookupA h.xtra c with
  | some v =>
      cases hnew : lookupA kwargs c with
      | some w => simp
      | none => simp
  | none =>
      simp only [Option.map_none']
      rw [lookupA_filter_absent h.xtra kwargs c hold]
      cases hnew : lookupA kwargs c <;> simp

/-! ## Claim C7 -/

/-- C7, counterexample.  The claim states that `insert`, `update`,
`upsert` and `delete` on a read-only view fail with the taxonomy's
`InvalidOperation` error.  `view.py` raises the builtin
`NotImplementedError` instead (`InvalidOperationError` exists in
`exceptions.py` but is never raised), as the concrete instance shows. -/
theorem c7_counterexample :
    ¬ (∀ (h : TableHandle) (db : DB) (r : Row) (ident : List Val),
        (viewInsert h db r).2 = .error .invalidOperation
        ∧ (viewUpdate h db r).2 = .error .invalidOperation
        ∧ (viewUpsert h db r).2 = .error .invalidOperation
        ∧ (viewDelete h db ident).2 = .error .invalidOperation) := by
  intro hcl
  exact absurd (hcl h0 db0 r0 [.i 1]).1 (by decide)

/-- C7, amended: each of the four mutating operations on a read-only
view fails immediately with the builtin `NotImplementedError` — not the
taxonomy's `InvalidOperationError` — and the database is returned
untouched (storage is never reached). -/
theorem c7_view_mutations_not_implemented (h : TableHandle) (db : DB) (r : Row)
    (ident : List Val) :
    viewInsert h db r = (db, .error .notImplemented)
    ∧ viewUpdate h db r = (db, .error .notImplemented)
    ∧ viewUpsert h db r = (db, .error .notImplemented)
    ∧ viewDelete h db ident = (db, .error .notImplemented) :=
  ⟨rfl, rfl, rfl, rfl⟩

/-! ## Claim C3 -/

/-- C3, counterexample.  The claim states that a unit's forward action
and its ledger insertion execute as one transaction — on failure both
are rolled back, so a failed single-unit run leaves the database as it
was after ensuring the ledger.  For the migration `mQuote` (its name
contains a single quote, so the f-string-built ledger INSERT of
`_record_migration` fails) the forward `CREATE TABLE x` issued through
`db.q` survives: `db.q` commits in its own session and never joins the
wrapping `db.transaction()` scope. -/
theorem c3_counterexample :
    ¬ (∀ (m : MigrationFile) (db : DB),
        ((migUp [m] none db).2.2).isSome = true →
        (migUp [m] none db).2.1 = ensureLedger db) := by
  intro hcl
  exact absurd (hcl mQuote dbL (by decide)) (by decide)

/-- C3, amended: the runner wraps each unit in `db.transaction()`, but
only Record-Store CRUD joins that scope; raw statements through
`Database.q` — including the ledger insertion itself — run in their own
immediately-committed sessions.  When a unit's forward action is a raw
`CREATE TABLE` and the subsequent ledger insertion fails, the run stops
with the error, the new table remains committed, and no ledger row for
the unit exists. -/
theorem c3_q_forward_effect_survives_failed_ledger_insert
    (db : DB) (ts : TableSchema) (tn : String) (v : Int) (nm : String)
    (hq : hasQuote nm = true)
    (htn : lookupA (ensureLedger db) tn = none)
    (hv : currentVersion (ensureLedger db) < v) :
    migUp [⟨v, nm, true, [.qexec (.createTable tn ts)], true, []⟩] none db
      = ([], ensureLedger db ++ [(tn, ⟨ts, []⟩)], some .schemaErr) := by
  have hdisc : discoverMigrations [⟨v, nm, true, [.qexec (.createTable tn ts)], true, []⟩]
      (currentVersion (ensureLedger db)) none
      = [⟨v, nm, true, [.qexec (.createTable tn ts)], true, []⟩] := by
    simp [discoverMigrations, sortByVersion, insertByVersion, List.filter_cons, hv]
  rw [migUp, hdisc, migUpGo]
  simp only [if_true]
  rw [runOps_cons, runOp]
  have hbody : runOps ([Op.qexec (.createTable tn ts)] ++ [Op.qexec (.insertLedger v nm)])
      { committed := ensureLedger db, sess := some ⟨false, ensureLedger db⟩ }
      = ({ committed := ensureLedger db ++ [(tn, ⟨ts, []⟩)],
           sess := some ⟨false, ensureLedger db⟩ }, some .schemaErr) := by
    simp only [List.cons_append, List.nil_append]
    rw [runOps_cons, runOp]
    have hq1 : qsem (.createTable tn ts) (ensureLedger db)
        = .ok (ensureLedger db ++ [(tn, ⟨ts, []⟩)]) := by
      simp [qsem, htn]
    simp only [hq1]
    rw [runOps_cons, runOp]
    have hq2 : qsem (.insertLedger v nm) (ensureLedger db ++ [(tn, ⟨ts, []⟩)])
        = .error .schemaErr := by
      simp [qsem, hq]
    simp only [hq2]
  simp only [hbody]

/-- C3, witness: the amended theorem applied at the concrete fixture
(ledger-only database, migration version 1 named with a quote). -/
theorem c3_witness :
    migUp [⟨1, mQuote.nm, true, [.qexec (.createTable "x" ts0)], true, []⟩] none dbL
      = ([], ensureLedger dbL ++ [("x", ⟨ts0, []⟩)], some .schemaErr) :=
  c3_q_forward_effect_survives_failed_ledger_insert dbL ts0 "x" 1 mQuote.nm
    (by decide) (by decide) (by decide)

/-! ## Claim C10 -/

/-- C10, confirmed.  For an FK edge declared in the `"table.column"`
form, `Table.get_parent` parses the target column (`ref_parts[1]`) but
never uses it: the result is identical for any two references with the
same table part, and (for a non-null FK value) it is exactly the parent
handle's primary-key identity lookup `parent_table[fk_value]` — so an
edge naming a non-primary-key column is still resolved against the
parent's primary key. -/
theorem c10_get_parent_pk_lookup
    (h : TableHandle) (reg : List (String × TableHandle)) (db : DB)
    (record : Row) (fkc r1 r2 : String) (fks1 fks2 : List (String × String))
    (hcol : (colNames h.schema).contains fkc = true)
    (hf1 : fks1.find? (fun fk => fk.1 = fkc) = some (fkc, r1))
    (hf2 : fks2.find? (fun fk => fk.1 = fkc) = some (fkc, r2))
    (hhead : (splitOnDot r1).headD "" = (splitOnDot r2).headD "") :
    getParent { h with foreignKeys := fks1 } reg db record fkc
      = getParent { h with foreignKeys := fks2 } reg db record fkc
    ∧ (∀ v, rowGet record fkc = some v → v ≠ .null →
        getParent { h with foreignKeys := fks1 } reg db record fkc
          = match lookupA reg ((splitOnDot r1).headD "") with
            | none => .error .schemaErr
            | some parentTable =>
              match tableGet parentTable db [v] with
              | .ok rec => .ok (some rec)
              | .error .notFound => .ok none
              | .error e => .error e) := by
  constructor
  · rw [getParent, getParent]
    simp only [hcol, hf1, hf2, Bool.not_true, if_false, hhead]
  · intro v hval hnn
    rw [getParent]
    simp only [hcol, hf1, Bool.not_true, if_false, hval]
    cases v with
    | null => exact absurd rfl hnn
    | i n => rfl
    | s t => rfl

/-- C10, witness: the two handles below differ only in the declared FK
target column (`user.name` vs `user.id`); `get_parent` returns the same
parent for both, namely the user whose PRIMARY KEY equals the FK value
1 — not the user whose `name` column does. -/
theorem c10_witness :
    getParent { postH with foreignKeys := [("author_id", "user.name")] }
        [("user", userH)] dbP [("pid", .i 10), ("author_id", .i 1)] "author_id"
      = getParent { postH with foreignKeys := [("author_id", "user.id")] }
          [("user", userH)] dbP [("pid", .i 10), ("author_id", .i 1)] "author_id"
    ∧ getParent { postH with foreignKeys := [("author_id", "user.name")] }
        [("user", userH)] dbP [("pid", .i 10), ("author_id", .i 1)] "author_id"
      = .ok (some (.untyped [("id", .i 1), ("name", .s "alice")])) := by
  have hmain := c10_get_parent_pk_lookup postH [("user", userH)] dbP
    [("pid", .i 10), ("author_id", .i 1)] "author_id" "user.name" "user.id"
    [("author_id", "user.name")] [("author_id", "user.id")]
    (by decide) (by decide) (by decide) (by decide)
  refine ⟨hmain.1, ?_⟩
  rw [hmain.2 (.i 1) (by decide) (by decide)]
  decide

/-! ## Claim C6 -/

/-- C6, counterexample.  The claim states that every record
`get_children` returns satisfies the child handle's FilterSet.  The
source builds the child query from the FK equality alone and never
applies `resolved_table._xtra_filters`: with a child handle filtered on
`s = "b"`, `get_children` still returns the child row with `s = "a"`. -/
theorem c6_counterexample :
    ¬ (∀ (h child : TableHandle) (db : DB) (record : Row) (fkc : String)
        (recs : List Rec),
        getChildren h db record child fkc = .ok recs →
        ∀ rec ∈ recs, rowSatisfies rec.row child.xtra = true) := by
  intro hcl
  exact absurd
    (hcl h0 childH dbC [("id", .i 1), ("name", .s "p")] "fk"
      [Rec.untyped [("cid", .i 1), ("fk", .i 1), ("s", .s "a")]]
      (by decide)
      (Rec.untyped [("cid", .i 1), ("fk", .i 1), ("s", .s "a")]) (by decide))
    (by decide)

/-- C6, amended: `get_children` returns exactly the child table's rows
whose FK column equals the parent's identity — the child handle's
FilterSet is NOT applied, so the result may contain records violating
it — and each row is shaped by the child handle's current output shape
(`_to_record`, typed vs untyped). -/
theorem c6_children_fk_filter_and_shape
    (h child : TableHandle) (db : DB) (record : Row) (fkc : String)
    (pc : String) (v : Val) (ctd : TableData)
    (hpk : h.schema.pk = [pc])
    (hval : rowGet record pc = some v)
    (hnn : v ≠ .null)
    (hcol : (colNames child.schema).contains fkc = true)
    (hctd : lookupA db child.name = some ctd) :
    getChildren h db record child fkc
      = .ok ((ctd.rows.filter (fun r => decide (rowGet r fkc = some v))).map (toRecord child))
    ∧ ∀ rec,
        rec ∈ (ctd.rows.filter (fun r => decide (rowGet r fkc = some v))).map (toRecord child)
        ↔ ∃ row ∈ ctd.rows, rowGet row fkc = some v ∧ rec = toRecord child row := by
  constructor
  · rw [getChildren]
    simp [hpk, hval, hcol, hctd, Ne.symm hnn]
    exact List.mem_of_elem_eq_true hcol
  · intro rec
    constructor
    · intro hrec
      obtain ⟨row, hrow, hrec⟩ := List.mem_map.mp hrec
      obtain ⟨hmem, hfk⟩ := List.mem_filter.mp hrow
      exact ⟨row, hmem, of_decide_eq_true hfk, hrec.symm⟩
    · rintro ⟨row, hmem, hfk, hrec⟩
      exact List.mem_map.mpr ⟨row, List.mem_filter.mpr ⟨hmem, decide_eq_true hfk⟩, hrec.symm⟩

/-- C6, witness: the amended theorem at the concrete fixture — the
filtered-out child row comes back (FilterSet ignored) wrapped untyped. -/
theorem c6_witness :
    getChildren h0 dbC [("id", .i 1), ("name", .s "p")] childH "fk"
      = .ok (((⟨childTs, [[("cid", .i 1), ("fk", .i 1), ("s", .s "a")]]⟩ : TableData).rows.filter
          (fun r => decide (rowGet r "fk" = some (.i 1)))).map (toRecord childH)) :=
  (c6_children_fk_filter_and_shape h0 childH dbC [("id", .i 1), ("name", .s "p")] "fk"
    "id" (.i 1) ⟨childTs, [[("cid", .i 1), ("fk", .i 1), ("s", .s "a")]]⟩
    (by decide) (by decide) (by decide) (by decide) (by decide)).1

/-! ## Claim C9 -/

/-- Single-column id schema used by the C9 fixtures. -/
def idTs : TableSchema := { cols := [⟨"id", none⟩], pk := ["id"] }

/-- C9, counterexample.  The claim states that `create-if-absent`
against a table that exists in STORAGE returns a handle bound to the
existing storage shape.  `Database.create` only consults its in-memory
`self._metadata`: when the table exists in storage but not in metadata
(fresh connection, no reflect), `CREATE TABLE IF NOT EXISTS` is a no-op
at the database yet the returned handle is bound to the NEWLY supplied
descriptor. -/
theorem c9_counterexample :
    ¬ (∀ (conn : DBConn) (n : String) (ns : TableSchema) (td : TableData)
        (res : TableSchema × DBConn),
        lookupA conn.storage n = some td →
        dbCreate conn n ns true false = .ok res →
        res.1 = td.schema) := by
  intro hcl
  exact absurd
    (hcl ⟨[], [("user", ⟨ts0, []⟩)]⟩ "user" idTs ⟨ts0, []⟩
      (idTs, ⟨[("user", idTs)], [("user", ⟨ts0, []⟩)]⟩)
      (by decide) (by decide))
    (by decide)

/-- C9, amended: with `if_not_exists=True`, the returned handle is
bound to the existing shape exactly when the table is present in the
connection's in-memory metadata (created or reflected through this
`Database` object), and storage is left untouched; when the table is
absent from metadata but present in storage, the handle is bound to the
newly supplied descriptor while storage keeps the existing shape. -/
theorem c9_create_if_absent_binding (conn : DBConn) (n : String) (ns : TableSchema) :
    (∀ ex, lookupA conn.metadata n = some ex →
        dbCreate conn n ns true false = .ok (ex, conn))
    ∧ (lookupA conn.metadata n = none → (lookupA conn.storage n).isSome = true →
        dbCreate conn n ns true false
          = .ok (ns, ⟨conn.metadata ++ [(n, ns)], conn.storage⟩)) := by
  constructor
  · intro ex hex
    rw [dbCreate]
    simp [hex]
  · intro hmd hst
    rw [dbCreate]
    simp [hmd, createNewTable, hst]

/-- C9, witness: both branches of the amended theorem at concrete
inputs — metadata hit binds to the existing schema `ts0`; storage-only
hit binds to the new descriptor `idTs` while storage keeps `ts0`. -/
theorem c9_witness :
    dbCreate ⟨[("user", ts0)], [("user", ⟨ts0, []⟩)]⟩ "user" idTs true false
      = .ok (ts0, ⟨[("user", ts0)], [("user", ⟨ts0, []⟩)]⟩)
    ∧ dbCreate ⟨[], [("user", ⟨ts0, []⟩)]⟩ "user" idTs true false
      = .ok (idTs, ⟨[("user", idTs)], [("user", ⟨ts0, []⟩)]⟩) :=
  ⟨(c9_create_if_absent_binding ⟨[("user", ts0)], [("user", ⟨ts0, []⟩)]⟩ "user" idTs).1
      ts0 (by decide),
   (c9_create_if_absent_binding ⟨[], [("user", ⟨ts0, []⟩)]⟩ "user" idTs).2
      (by decide) (by decide)⟩

/-! ## Claim C8 -/

theorem insertByVersion_perm (m : MigrationFile) (l : List MigrationFile) :
    (insertByVersion m l).Perm (m :: l) := by
  induction l with
  | nil => exact List.Perm.refl _
  | cons x xs ih =>
      rw [insertByVersion]
      by_cases h : m.version ≤ x.version
      · rw [if_pos h]
      · rw [if_neg h]
        exact (ih.cons x).trans (List.Perm.swap m x xs)

theorem sortByVersion_perm (l : List MigrationFile) : (sortByVersion l).Perm l := by
  induction l with
  | nil => exact List.Perm.refl _
  | cons m ms ih =>
      rw [sortByVersion]
      exact (insertByVersion_perm m (sortByVersion ms)).trans (ih.cons m)

theorem insertByVersion_pairwise (m : MigrationFile) (l : List MigrationFile)
    (hl : l.Pairwise (fun a b => a.version ≤ b.version)) :
    (insertByVersion m l).Pairwise (fun a b => a.version ≤ b.version) := by
  induction l with
  | nil => simp [insertByVersion]
  | cons x xs ih =>
      obtain ⟨hx, hxs⟩ := List.pairwise_cons.mp hl
      rw [insertByVersion]
      by_cases h : m.version ≤ x.version
      · rw [if_pos h]
        refine List.Pairwise.cons ?_ hl
        intro b hb
        rcases List.mem_cons.mp hb with hb | hb
        · subst hb; exact h
        · exact le_trans h (hx b hb)
      · rw [if_neg h]
        refine List.Pairwise.cons ?_ (ih hxs)
        intro b hb
        have hb2 := (insertByVersion_perm m xs).mem_iff.mp hb
        rcases List.mem_cons.mp hb2 with hb2 | hb2
        · subst hb2; exact le_of_lt (lt_of_not_le h)
        · exact hx b hb2

theorem sortByVersion_pairwise (l : List MigrationFile) :
    (sortByVersion l).Pairwise (fun a b => a.version ≤ b.version) := by
  induction l with
  | nil => simp [sortByVersion]
  | cons m ms ih => exact insertByVersion_pairwise m (sortByVersion ms) ih

/-- Membership in the discovery result: version filters hold and the
unit comes from the directory. -/
theorem discoverMigrations_mem (dir : List MigrationFile) (after : Int) (upTo : Option Int)
    (m : MigrationFile) (hm : m ∈ discoverMigrations dir after upTo) :
    m ∈ dir ∧ after < m.version ∧ ∀ u, upTo = some u → m.version ≤ u := by
  rw [discoverMigrations] at hm
  have hm2 := (sortByVersion_perm _).mem_iff.mp hm
  obtain ⟨hmem, hfilt⟩ := List.mem_filter.mp hm2
  refine ⟨hmem, ?_, ?_⟩
  · have := (Bool.and_eq_true _ _).mp hfilt
    exact of_decide_eq_true this.1
  · intro u hu
    subst hu
    have := (Bool.and_eq_true _ _).mp hfilt
    exact of_decide_eq_true this.2

/-- The rolled-back accumulator of `migDownGo` keeps any pairwise
property of `acc ++ versions of the remaining units`: each processed
unit appends its version, failures truncate. -/
theorem migDownGo_pairwise (R : Int → Int → Prop) (ms : List MigrationFile) (db : DB)
    (acc : List Int)
    (hp : (acc ++ ms.map MigrationFile.version).Pairwise R) :
    ((migDownGo ms db acc).1).Pairwise R := by
  induction ms generalizing db acc with
  | nil =>
      rw [migDownGo]
      simpa using hp
  | cons m rest ih =>
      have hacc : acc.Pairwise R :=
        hp.sublist (List.sublist_append_left _ _)
      rw [migDownGo]
      by_cases hdg : m.hasDowngrade = true
      · rw [if_pos hdg]
        rcases hrun : runOps [.tx (m.downgrade ++ [.qexec (.deleteLedger m.version)])]
            { committed := db, sess := none } with ⟨st, e?⟩
        cases e? with
        | none =>
            simp only [hrun]
            apply ih
            simpa [List.append_assoc] using hp
        | some e => simp only [hrun]; exact hacc
      · rw [if_neg hdg]
        exact hacc

/-- Every version in `migDownGo`'s result comes from the accumulator or
from the remaining units. -/
theorem migDownGo_mem (ms : List MigrationFile) (db : DB) (acc : List Int) :
    ∀ v ∈ (migDownGo ms db acc).1, v ∈ acc ∨ v ∈ ms.map MigrationFile.version := by
  induction ms generalizing db acc with
  | nil =>
      intro v hv
      rw [migDownGo] at hv
      exact Or.inl hv
  | cons m rest ih =>
      intro v hv
      rw [migDownGo] at hv
      by_cases hdg : m.hasDowngrade = true
      · rw [if_pos hdg] at hv
        rcases hrun : runOps [.tx (m.downgrade ++ [.qexec (.deleteLedger m.version)])]
            { committed := db, sess := none } with ⟨st, e?⟩
        rw [hrun] at hv
        cases e? with
        | none =>
            simp only at hv
            rcases ih st.committed (acc ++ [m.version]) v hv with hva | hvr
            · rcases List.mem_append.mp hva with hva | hva
              · exact Or.inl hva
              · refine Or.inr ?_
                rw [List.map_cons, List.mem_cons]
                exact Or.inl (List.mem_singleton.mp hva)
            · refine Or.inr ?_
              rw [List.map_cons, List.mem_cons]
              exact Or.inr hvr
        | some e => exact Or.inl hv
      · rw [if_neg hdg] at hv
        exact Or.inl hv

/-- C8, counterexample.  The claim states that with no target, `down()`
rolls back exactly the most recently applied unit.  The units actually
undone are the discovered migration FILES with version in
`(current-1, current]`: with a ledger recording version 1 as applied
but an empty migrations directory, `down()` rolls back nothing at all
(and deletes no ledger row) instead of the most recently applied
unit. -/
theorem c8_counterexample :
    ¬ (∀ (dir : List MigrationFile) (db : DB),
        0 < currentVersion (ensureLedger db) →
        (migDown dir none db).1 = [currentVersion (ensureLedger db)]) := by
  intro hcl
  exact absurd (hcl [] dbL1 (by decide)) (by decide)

/-- On an error-free run, `migDownGo` processes every unit it was
given, appending each version to the accumulator in order. -/
theorem migDownGo_complete (ms : List MigrationFile) (db : DB) (acc : List Int)
    (hok : (migDownGo ms db acc).2.2 = none) :
    (migDownGo ms db acc).1 = acc ++ ms.map MigrationFile.version := by
  induction ms generalizing db acc with
  | nil => rw [migDownGo]; simp
  | cons m rest ih =>
      rw [migDownGo] at hok ⊢
      by_cases hdg : m.hasDowngrade = true
      · rw [if_pos hdg] at hok ⊢
        rcases hrun : runOps [.tx (m.downgrade ++ [.qexec (.deleteLedger m.version)])]
            { committed := db, sess := none } with ⟨st, e?⟩
        simp only [hrun] at hok ⊢
        cases e? with
        | none =>
            rw [ih st.committed (acc ++ [m.version]) hok]
            simp
        | some e => simp at hok
      · rw [if_neg hdg] at hok
        simp at hok

/-- C8, amended: the units whose reverse actions run are the DISCOVERED
migration files with version in `(target, current]` (target defaulting
to `current - 1`), undone in strictly descending version order — which
coincides with "the applied units above the target" only when the
directory's files match the ledger.  With distinct file versions, the
rolled-back versions are strictly descending, bounded by the target
exclusive / current version inclusive, and all drawn from the
directory; and whenever the run completes without error (ledger
applied or not), the reverse action of EVERY discovered file in that
range runs — the rolled-back versions are exactly the discovered
files' versions in reverse sorted order. -/
theorem c8_down_discovered_files_descending
    (dir : List MigrationFile) (tv? : Option Int) (db : DB)
    (hnd : (dir.map MigrationFile.version).Nodup) :
    ((migDown dir tv? db).1).Pairwise (fun a b => a > b)
    ∧ (∀ v ∈ (migDown dir tv? db).1,
        tv?.getD (currentVersion (ensureLedger db) - 1) < v
        ∧ v ≤ currentVersion (ensureLedger db)
        ∧ v ∈ dir.map MigrationFile.version)
    ∧ ((migDown dir tv? db).2.2 = none → currentVersion (ensureLedger db) ≠ 0 →
        (migDown dir tv? db).1
          = ((discoverMigrations dir (tv?.getD (currentVersion (ensureLedger db) - 1))
              (some (currentVersion (ensureLedger db)))).reverse).map
              MigrationFile.version) := by
  rw [migDown]
  by_cases hcur : currentVersion (ensureLedger db) = 0
  · rw [if_pos hcur]
    exact ⟨List.Pairwise.nil, by intro v hv; exact absurd hv (List.not_mem_nil v),
      fun _ hcur2 => absurd hcur hcur2⟩
  · rw [if_neg hcur]
    set target := tv?.getD (currentVersion (ensureLedger db) - 1) with htarget
    set plan := discoverMigrations dir target (some (currentVersion (ensureLedger db)))
      with hplan
    have hsorted : plan.Pairwise (fun a b => a.version ≤ b.version) :=
      sortByVersion_pairwise _
    have hplannd : (plan.map MigrationFile.version).Nodup := by
      have hperm : (plan.map MigrationFile.version).Perm
          ((dir.filter (fun m =>
            decide (target < m.version) &&
            (match (some (currentVersion (ensureLedger db)) : Option Int) with
             | none => true
             | some u => decide (m.version ≤ u)))).map MigrationFile.version) :=
        (sortByVersion_perm _).map _
      refine hperm.nodup_iff.mpr ?_
      exact hnd.sublist ((List.filter_sublist dir).map _)
    have hstrict : ((plan.reverse.map MigrationFile.version)).Pairwise (fun a b => a > b) := by
      refine List.pairwise_map.mpr ?_
      refine List.pairwise_reverse.mpr ?_
      have hne : plan.Pairwise (fun a b => a.version ≠ b.version) :=
        List.pairwise_map.mp hplannd
      exact (hsorted.and hne).imp (fun hab => lt_of_le_of_ne hab.1 hab.2)
    refine ⟨?_, ?_, ?_⟩
    · apply migDownGo_pairwise
      have : plan.reverse.map MigrationFile.version
          = [] ++ plan.reverse.map MigrationFile.version := rfl
      rw [← this]
      exact hstrict
    · intro v hv
      rcases migDownGo_mem plan.reverse (ensureLedger db) [] v hv with hva | hvm
      · exact absurd hva (List.not_mem_nil v)
      · obtain ⟨m, hm, hvm⟩ := List.mem_map.mp hvm
        have hm2 : m ∈ plan := List.mem_reverse.mp hm
        obtain ⟨hdir, hgt, hle⟩ := discoverMigrations_mem dir target
          (some (currentVersion (ensureLedger db))) m hm2
        subst hvm
        exact ⟨hgt, hle _ rfl, List.mem_map.mpr ⟨m, hdir, rfl⟩⟩
    · intro hok _
      rw [migDownGo_complete plan.reverse (ensureLedger db) [] hok]
      simp

/-- C8, witness: the amended theorem at concrete fixtures.  With the
ledger recording versions 1 and 2 and both files discovered, a clean
run to version 0 rolls back EXACTLY versions 2 then 1.  With the
ledger recording only version 2, the same run still rolls back 2 then
1 — the reverse action of the discovered file 1 runs although it was
never applied. -/
theorem c8_witness :
    (migDown [mf 1, mf 2] (some 0) dbL12).1 = [2, 1]
    ∧ (migDown [mf 1, mf 2] (some 0) dbL2).1 = [2, 1]
    ∧ ((migDown [mf 1, mf 2] (some 0) dbL12).1).Pairwise (fun a b => a > b)
    ∧ ∀ v ∈ (migDown [mf 1, mf 2] (some 0) dbL12).1,
        (some (0 : Int)).getD (currentVersion (ensureLedger dbL12) - 1) < v
        ∧ v ≤ currentVersion (ensureLedger dbL12)
        ∧ v ∈ [mf 1, mf 2].map MigrationFile.version := by
  have hmain := c8_down_discovered_files_descending [mf 1, mf 2] (some 0) dbL12 (by decide)
  have hmain2 := c8_down_discovered_files_descending [mf 1, mf 2] (some 0) dbL2 (by decide)
  refine ⟨?_, ?_, hmain.1, hmain.2.1⟩
  · rw [hmain.2.2 (by decide) (by decide)]
    decide
  · rw [hmain2.2.2 (by decide) (by decide)]
    decide

/-! ## Claim C4 -/

theorem lookupA_cons_pair {α : Type} (p : String × α) (l : List (String × α)) (k : String) :
    lookupA (p :: l) k = if p.1 = k then some p.2 else lookupA l k := by
  obtain ⟨k0, v0⟩ := p
  exact lookupA_cons k0 v0 l k

theorem lookupA_some_mem {α : Type} (l : List (String × α)) (k : String) (v : α)
    (hl : lookupA l k = some v) : (k, v) ∈ l := by
  induction l with
  | nil => simp [lookupA] at hl
  | cons p rest ih =>
      obtain ⟨k0, v0⟩ := p
      rw [lookupA_cons] at hl
      by_cases hk : k0 = k
      · rw [if_pos hk] at hl
        injection hl with hv
        subst hk
        subst hv
        exact List.mem_cons_self _ _
      · rw [if_neg hk] at hl
        exact List.mem_cons_of_mem _ (ih hl)

/-- Every entry the engine builds is keyed by its column's name. -/
theorem engineVal_fst (ts : TableSchema) (rows : List Row) (data : Row) (col : Col) :
    (engineVal ts rows data col).1 = col.name := by
  rw [engineVal]
  cases rowGet data col.name with
  | some v => rfl
  | none =>
      cases col.dflt with
      | some d => rfl
      | none => by_cases h : ts.pk = [col.name] <;> simp [h]

/-- A value supplied for a declared column survives into the engine's
stored row. -/
theorem rowGet_map_engineVal (ts : TableSchema) (rows : List Row) (data : Row)
    (cols : List Col) (c : String) (v : Val)
    (hc : c ∈ cols.map (fun cl => cl.name)) (hv : rowGet data c = some v) :
    rowGet (cols.map (engineVal ts rows data)) c = some v := by
  induction cols with
  | nil => simp at hc
  | cons cl rest ih =>
      rw [List.map_cons]
      by_cases h : cl.name = c
      · have hev : engineVal ts rows data cl = (cl.name, v) := by
          rw [engineVal, h, hv]
        rw [hev, rowGet, lookupA_cons, if_pos h]
      · rw [rowGet, lookupA_cons_pair, engineVal_fst, if_neg h]
        rw [List.map_cons] at hc
        rcases List.mem_cons.mp hc with hc2 | hc2
        · exact absurd hc2.symm h
        · exact ih hc2

/-- Inverting a successful `buildRow`: the stored row is `engineRow`
and the record carried no unknown column. -/
theorem buildRow_ok_inv (ts : TableSchema) (rows : List Row) (data newRow : Row)
    (hb : buildRow ts rows data = .ok newRow) :
    newRow = engineRow ts rows data
    ∧ data.any (fun cv => !(colNames ts).contains cv.1) = false := by
  rw [buildRow] at hb
  by_cases h1 : data.any (fun cv => !(colNames ts).contains cv.1) = true
  · rw [if_pos h1] at hb; cases hb
  · rw [if_neg h1] at hb
    by_cases h2 : (pkOfRow ts (engineRow ts rows data)).contains .null = true
    · rw [if_pos h2] at hb; cases hb
    · rw [if_neg h2] at hb
      injection hb with hb
      refine ⟨hb.symm, ?_⟩
      revert h1
      cases data.any (fun cv => !(colNames ts).contains cv.1) <;> simp

/-- C4, confirmed.  For a record accepted by `Table.insert` on a table
with a declared primary key (the handle's schema matching storage),
fetching by the returned record's identity yields exactly the record
`insert` returned: `insert` re-reads the stored row (server-assigned
defaults populated) and `__getitem__` finds that same row — it is the
unique row with that primary key, and it satisfies the handle's
FilterSet because `insert` injected the filter values. -/
theorem c4_insert_get_round_trip
    (h : TableHandle) (db db2 : DB) (td : TableData) (r : Row) (rec : Rec)
    (htd : lookupA db h.name = some td)
    (hsch : h.schema = td.schema)
    (hpk : td.schema.pk ≠ [])
    (hins : tableInsert h db r = .ok (rec, db2)) :
    tableGet h db2 (pkOfRow h.schema rec.row) = .ok rec := by
  rw [tableInsert] at hins
  simp only [htd] at hins
  rcases hmerge : mergeXtra h.xtra r with e | data
  · simp only [hmerge] at hins
    simp at hins
  · simp only [hmerge] at hins
    rcases hbuild : buildRow td.schema td.rows data with e | newRow
    · simp only [hbuild] at hins
      simp at hins
    · simp only [hbuild] at hins
      by_cases hcoll : td.rows.any
          (fun r0 => decide (pkOfRow td.schema r0 = pkOfRow td.schema newRow)) = true
      · rw [if_pos hcoll] at hins; cases hins
      · rw [if_neg hcoll] at hins
        have hnocoll : ∀ r0 ∈ td.rows, pkOfRow td.schema r0 ≠ pkOfRow td.schema newRow := by
          intro r0 hr0 heq
          have hfalse : td.rows.any
              (fun r0 => decide (pkOfRow td.schema r0 = pkOfRow td.schema newRow)) = false := by
            revert hcoll
            cases td.rows.any
              (fun r0 => decide (pkOfRow td.schema r0 = pkOfRow td.schema newRow)) <;> simp
          rw [List.any_eq_false] at hfalse
          exact hfalse r0 hr0 (by simpa using heq)
        have hfind : findByPk td.schema (td.rows ++ [newRow]) (pkOfRow td.schema newRow)
            = some newRow := by
          rw [findByPk, List.find?_append]
          have h1 : td.rows.find?
              (fun r0 => decide (pkOfRow td.schema r0 = pkOfRow td.schema newRow)) = none := by
            refine List.find?_eq_none.mpr (fun r0 hr0 hdec => ?_)
            exact hnocoll r0 hr0 (of_decide_eq_true hdec)
          rw [h1]
          simp [List.find?]
        rw [hfind] at hins
        injection hins with hins2
        injection hins2 with hrec hdb2
        subst hrec
        subst hdb2
        -- extract FilterSet satisfaction of the stored row
        obtain ⟨hnewEq, hnounk⟩ := buildRow_ok_inv td.schema td.rows data newRow hbuild
        have hsat : rowSatisfies newRow h.xtra = true := by
          rw [rowSatisfies, List.all_eq_true]
          intro cv hcv
          have hdv : rowGet data cv.1 = some cv.2 := mergeXtra_mem h.xtra r data hmerge cv hcv
          have hmem : (cv.1, cv.2) ∈ data := lookupA_some_mem data cv.1 cv.2 hdv
          have hcontains : (colNames td.schema).contains cv.1 = true := by
            rw [List.any_eq_false] at hnounk
            have hx := hnounk (cv.1, cv.2) hmem
            revert hx
            cases (colNames td.schema).contains cv.1 <;> simp
          have hcm : cv.1 ∈ td.schema.cols.map (fun cl => cl.name) :=
            List.mem_of_elem_eq_true hcontains
          rw [hnewEq, engineRow]
          exact decide_eq_true
            (rowGet_map_engineVal td.schema td.rows data td.schema.cols cv.1 cv.2 hcm hdv)
        -- the fetched row
        have hrow : (toRecord h newRow).row = newRow := by
          rw [toRecord]
          cases ht : h.typed <;> simp [Rec.row]
        rw [tableGet]
        simp only [lookupA_setA_self]
        have hcols : tableGetPkCols h = h.schema.pk := by
          rw [tableGetPkCols, if_neg]
          rw [hsch]
          cases hpkl : td.schema.pk with
          | nil => exact absurd hpkl hpk
          | cons a l => simp
        rw [hrow]
        have hlen : ¬ (pkOfRow h.schema newRow).length ≠ (tableGetPkCols h).length := by
          rw [hcols, pkOfRow, List.length_map]
          exact fun hne => hne rfl
        rw [if_neg hlen]
        have hfind2 : (td.rows ++ [newRow]).find? (fun r0 =>
            decide ((tableGetPkCols h).map (fun c => (rowGet r0 c).getD .null)
              = pkOfRow h.schema newRow)
            && rowSatisfies r0 h.xtra) = some newRow := by
          rw [List.find?_append]
          have h1 : td.rows.find? (fun r0 =>
              decide ((tableGetPkCols h).map (fun c => (rowGet r0 c).getD .null)
                = pkOfRow h.schema newRow)
              && rowSatisfies r0 h.xtra) = none := by
            refine List.find?_eq_none.mpr (fun r0 hr0 hpred => ?_)
            obtain ⟨hdec, _⟩ := (Bool.and_eq_true _ _).mp hpred
            have heq : pkOfRow h.schema r0 = pkOfRow h.schema newRow := by
              have hx := of_decide_eq_true hdec
              rw [hcols] at hx
              exact hx
            rw [hsch] at heq
            exact hnocoll r0 hr0 heq
          rw [h1]
          have h2 : (decide ((tableGetPkCols h).map (fun c => (rowGet newRow c).getD .null)
              = pkOfRow h.schema newRow)
              && rowSatisfies newRow h.xtra) = true := by
            rw [Bool.and_eq_true]
            refine ⟨decide_eq_true ?_, hsat⟩
            rw [hcols]
            rfl
          simp [List.find?, h2]
        rw [hfind2]

/-- C4, witness: the round-trip theorem at the concrete fixture —
`get(insert(r0).identity)` returns exactly what `insert(r0)`
returned. -/
theorem c4_witness :
    tableGet h0 db0ins (pkOfRow h0.schema rec0.row) = .ok rec0 :=
  c4_insert_get_round_trip h0 db0 db0ins ⟨ts0, []⟩ r0 rec0
    (by decide) (by decide) (by decide) (by decide)

end Deebase
